import Mathlib

/-!
Verification of `src/channeld/commit_tx.c` (LNP-BP/c-lightning).

The file shallowly embeds the commitment-transaction builder `commit_tx`
and its helper `commit_tx_num_untrimmed`.  Collaborators that live outside
the repository snapshot (the trim predicate, the base-fee formula, the fee
allocator, the canonical output permuter and the transaction container
primitives) are modelled from the specification, as marked on each
definition.  Machine integers (u64 amounts) are embedded as `Nat`; the one
place the C code can overflow (`amount_msat_add`) is modelled by an
explicit `2 ^ 64` bound, and `abort()` / failed `assert()` branches are
modelled by returning `none`.
-/

namespace CommitTx

/-- Side of the channel, `enum side` in the C code (LOCAL / REMOTE). -/
inductive Side where
  | LOCAL
  | REMOTE
deriving DecidableEq, Repr

/-- One in-flight HTLC as read by `commit_tx`: id, amount in millisatoshi
(u64), payment-hash commitment, absolute expiry in blocks, owning side. -/
structure Htlc where
  id : Nat
  amount : Nat
  rhash : Nat
  expiry : Nat
  owner : Side
deriving DecidableEq, Repr

/-- `htlc_owner` accessor used by the emission loops. -/
def htlc_owner (h : Htlc) : Side := h.owner

/-- Modelled from the spec: AmountMsat→AmountSat conversion truncates
(rounds toward zero); the residue becomes implicit fee (§3). -/
def amount_msat_to_sat_round_down (msat : Nat) : Nat := msat / 1000

/-- Modelled from the spec: comparison of a millisatoshi amount against a
satoshi amount (`amount_msat_greater_eq_sat`), via the exact conversion
sat → msat (§3). -/
def amount_msat_greater_eq_sat (msat sat : Nat) : Bool := decide (sat * 1000 ≤ msat)

/-- Modelled from the spec: weight of an HTLC-timeout transaction, one of
the published protocol weight constants of §4.2/§9, pinned from BOLT #3. -/
def htlc_timeout_weight : Nat := 663

/-- Modelled from the spec: weight of an HTLC-success transaction, one of
the published protocol weight constants of §4.2/§9, pinned from BOLT #3. -/
def htlc_success_weight : Nat := 703

/-- Modelled from the spec: fixed base weight of the commitment
transaction skeleton (§4.2), pinned from BOLT #3. -/
def commitment_tx_base_weight : Nat := 724

/-- Modelled from the spec: fixed per-HTLC-output weight increment (§4.2),
pinned from BOLT #3. -/
def commitment_tx_weight_per_htlc : Nat := 172

/-- Modelled from the spec: the on-chain cost basis of one HTLC at the
given fee rate; it depends on whether the HTLC is offered or received by
the rendering side (§4.1): an HTLC offered by `side` is spent by an
HTLC-timeout transaction, a received one by an HTLC-success transaction. -/
def htlc_fee_cost (owner side : Side) (feerate_per_kw : Nat) : Nat :=
  (if owner = side then htlc_timeout_weight else htlc_success_weight) * feerate_per_kw / 1000

/-- Modelled from the spec: `htlc_is_trimmed` (common/htlc_trim.h, not in
the snapshot).  An HTLC is trimmed when its satoshi-equivalent value, net
of the per-HTLC on-chain cost at the given fee rate, does not exceed the
dust limit (§4.1). -/
def htlc_is_trimmed (owner : Side) (amountMsat feerate_per_kw dust_limit : Nat)
    (side : Side) : Bool :=
  decide (amount_msat_to_sat_round_down amountMsat - htlc_fee_cost owner side feerate_per_kw
    ≤ dust_limit)

/-- `trim` from commit_tx.c: the trimming predicate both the counting pass
and the emission loops apply. -/
def trim (h : Htlc) (feerate_per_kw dust_limit : Nat) (side : Side) : Bool :=
  htlc_is_trimmed (htlc_owner h) h.amount feerate_per_kw dust_limit side

/-- `commit_tx_num_untrimmed` from commit_tx.c: counts the HTLCs that
survive trimming. -/
def commit_tx_num_untrimmed (htlcs : List Htlc) (feerate_per_kw dust_limit : Nat)
    (side : Side) : Nat :=
  htlcs.countP (fun h => ! trim h feerate_per_kw dust_limit side)

/-- Modelled from the spec: `commit_tx_base_fee` (common, not in the
snapshot).  fee = ceil(weight × feerate_per_kw / 1000) where weight is the
fixed base weight plus the per-HTLC increment per untrimmed HTLC (§4.2). -/
def commit_tx_base_fee (feerate_per_kw numUntrimmed : Nat) : Nat :=
  ((commitment_tx_base_weight + commitment_tx_weight_per_htlc * numUntrimmed)
    * feerate_per_kw + 999) / 1000

/-- Modelled from the spec: `try_subtract_fee` (common, not in the
snapshot).  The channel funder pays the fee: it is subtracted from
whichever of self_pay/other_pay corresponds to the opener as seen from the
rendering side, floored at zero; the other balance is untouched and no
error is raised (§4.3).  Balances are millisatoshi, the fee satoshi. -/
def try_subtract_fee (opener side : Side) (base_fee self_pay other_pay : Nat) :
    Nat × Nat :=
  if opener = side then (self_pay - base_fee * 1000, other_pay)
  else (self_pay, other_pay - base_fee * 1000)

/-- Locking scripts, abstracted over the script-generation collaborator:
each constructor records exactly the data the C code feeds into the
corresponding script builder (keyset handle plus per-output data). -/
inductive Script where
  | offeredHtlc (keyset rhash : Nat)
  | receivedHtlc (keyset rhash expiry : Nat)
  | toLocal (keyset to_self_delay : Nat)
  | toRemote (keyset : Nat)
deriving DecidableEq, Repr

/-- One transaction output: locking script and amount in satoshis. -/
structure TxOutput where
  script : Script
  amount : Nat
deriving DecidableEq, Repr

/-- One entry of the HTLC-output map: a genuine HTLC reference, one of the
two sentinel values `dummy_to_local` / `dummy_to_remote` (the magic
pointers 0x01 / 0x02 of the C code), or NULL. -/
inductive MapEntry where
  | ref (h : Htlc)
  | dLocal
  | dRemote
  | null
deriving DecidableEq, Repr

/-- One emitted output together with the data the C code writes in
lockstep at the same index `n`: the HTLC-map entry and the cltv used for
the sort tie-break (unassigned, hence irrelevant, for balance outputs;
embedded as 0). -/
structure Entry where
  out : TxOutput
  me : MapEntry
  cltv : Nat
deriving DecidableEq, Repr

/-- Offered-HTLC emission loop (BOLT #3 step 3 in commit_tx.c): every HTLC
owned by the rendering side and not trimmed yields an offered-HTLC output,
its map entry and its cltv, in input order. -/
def offeredEntries (keyset feerate_per_kw dust_limit : Nat) (side : Side)
    (htlcs : List Htlc) : List Entry :=
  (htlcs.filter (fun h => (htlc_owner h == side) && ! trim h feerate_per_kw dust_limit side)).map
    (fun h =>
      { out := { script := Script.offeredHtlc keyset h.rhash,
                 amount := amount_msat_to_sat_round_down h.amount },
        me := MapEntry.ref h,
        cltv := h.expiry })

/-- Received-HTLC emission loop (BOLT #3 step 4 in commit_tx.c): every
HTLC not owned by the rendering side and not trimmed yields a
received-HTLC output, its map entry and its cltv, in input order. -/
def receivedEntries (keyset feerate_per_kw dust_limit : Nat) (side : Side)
    (htlcs : List Htlc) : List Entry :=
  (htlcs.filter (fun h => (!(htlc_owner h == side)) && ! trim h feerate_per_kw dust_limit side)).map
    (fun h =>
      { out := { script := Script.receivedHtlc keyset h.rhash h.expiry,
                 amount := amount_msat_to_sat_round_down h.amount },
        me := MapEntry.ref h,
        cltv := h.expiry })

/-- to_local emission (BOLT #3 step 5 in commit_tx.c): present iff the
post-fee self_pay is ≥ dust_limit; its map entry is the dummy_to_local
sentinel when direct outputs were requested, NULL otherwise. -/
def toLocalEntries (keyset to_self_delay dust_limit selfPost : Nat)
    (directReq : Bool) : List Entry :=
  if amount_msat_greater_eq_sat selfPost dust_limit then
    [{ out := { script := Script.toLocal keyset to_self_delay,
                amount := amount_msat_to_sat_round_down selfPost },
       me := if directReq then MapEntry.dLocal else MapEntry.null,
       cltv := 0 }]
  else []

/-- to_remote emission (BOLT #3 step 6 in commit_tx.c): present iff the
post-fee other_pay is ≥ dust_limit; its map entry is the dummy_to_remote
sentinel when direct outputs were requested, NULL otherwise. -/
def toRemoteEntries (keyset dust_limit otherPost : Nat) (directReq : Bool) : List Entry :=
  if amount_msat_greater_eq_sat otherPost dust_limit then
    [{ out := { script := Script.toRemote keyset,
                amount := amount_msat_to_sat_round_down otherPost },
       me := if directReq then MapEntry.dRemote else MapEntry.null,
       cltv := 0 }]
  else []

/-- All emitted entries, in the order the four emission steps of
commit_tx.c append them (before the canonical permutation). -/
def commitEntries (keyset to_self_delay feerate_per_kw dust_limit : Nat) (side : Side)
    (htlcs : List Htlc) (selfPost otherPost : Nat) (directReq : Bool) : List Entry :=
  offeredEntries keyset feerate_per_kw dust_limit side htlcs
    ++ receivedEntries keyset feerate_per_kw dust_limit side htlcs
    ++ toLocalEntries keyset to_self_delay dust_limit selfPost directReq
    ++ toRemoteEntries keyset dust_limit otherPost directReq

/-- Post-fee balance pair: the balances after commit_tx.c has sized the
base fee from the untrimmed count and subtracted it from the funder. -/
def postFee (opener side : Side) (feerate_per_kw dust_limit self_pay other_pay : Nat)
    (htlcs : List Htlc) : Nat × Nat :=
  try_subtract_fee opener side
    (commit_tx_base_fee feerate_per_kw
      (commit_tx_num_untrimmed htlcs feerate_per_kw dust_limit side))
    self_pay other_pay

/-- The full entry list of one commit_tx call, fee subtraction included. -/
def commitEntriesFull (opener : Side) (keyset to_self_delay feerate_per_kw dust_limit : Nat)
    (self_pay other_pay : Nat) (htlcs : List Htlc) (directReq : Bool) (side : Side) :
    List Entry :=
  commitEntries keyset to_self_delay feerate_per_kw dust_limit side htlcs
    (postFee opener side feerate_per_kw dust_limit self_pay other_pay htlcs).1
    (postFee opener side feerate_per_kw dust_limit self_pay other_pay htlcs).2
    directReq

/-- Boolean lexicographic order on `List Nat`, the key order of the
canonical permuter. -/
def keyLe : List Nat → List Nat → Bool
  | [], _ => true
  | _ :: _, [] => false
  | a :: as, b :: bs => decide (a < b) || ((a == b) && keyLe as bs)

/-- Propositional form of `keyLe`. -/
def keyLeP (x y : List Nat) : Prop := keyLe x y = true

instance : DecidableRel keyLeP := fun x y => inferInstanceAs (Decidable (_ = true))

/-- Injective encoding of a script as a fixed-shape key fragment
[tag, keyset, field1, field2]; stands in for the locking-script bytes in
the canonical order. -/
def scriptKey : Script → List Nat
  | Script.offeredHtlc ks r => [0, ks, r, 0]
  | Script.receivedHtlc ks r e => [1, ks, r, e]
  | Script.toLocal ks d => [2, ks, d, 0]
  | Script.toRemote ks => [3, ks, 0, 0]

/-- Sort key of one emitted entry: amount first, then the locking script,
then the cltv tie-break (§4.5). -/
def entryKey (e : Entry) : List Nat :=
  e.out.amount :: (scriptKey e.out.script ++ [e.cltv])

/-- Modelled from the spec: the order of the canonical permuter (§4.5):
ascending by (amount, locking script) with the expiry tie-break; balance
outputs carry no meaningful expiry and their order under ties is stable. -/
def entryLe (e1 e2 : Entry) : Prop := keyLeP (entryKey e1) (entryKey e2)

instance : DecidableRel entryLe := fun e1 e2 => inferInstanceAs (Decidable (_ = true))

/-- Modelled from the spec: `permute_outputs` (common/permute_tx.c, not in
the snapshot).  Reorders the emitted outputs into the canonical order of
§4.5; the transaction outputs and the HTLC-output map are permuted
identically, which the lockstep `Entry` records make intrinsic. -/
def sortEntries (entries : List Entry) : List Entry :=
  List.insertionSort entryLe entries

/-- One transaction input: funding outpoint, sequence, input amount. -/
structure TxInput where
  txid : Nat
  txout : Nat
  sequence : Nat
  amount : Nat
deriving DecidableEq, Repr

/-- The built commitment transaction. -/
structure BitcoinTx where
  version : Nat
  locktime : Nat
  inputs : List TxInput
  outputs : List TxOutput
deriving DecidableEq, Repr

/-- A located direct (balance) output: its final index and the output. -/
structure DirectOut where
  idx : Nat
  out : TxOutput
deriving DecidableEq, Repr

/-- Last-write-wins combination used by the direct-output scan: a value
recorded later in the loop overrides an earlier one. -/
def lastWrite : Option DirectOut → Option DirectOut → Option DirectOut
  | some d, _ => some d
  | none, now => now

/-- The direct-output identification loop of commit_tx.c (run only when
the caller requested direct outputs): walks the permuted outputs and map
in parallel, replaces each sentinel map entry by NULL and records the
output it sat at into the per-side slot. -/
def directScanAux : Nat → List (TxOutput × MapEntry) →
    List MapEntry × (Option DirectOut × Option DirectOut)
  | _, [] => ([], (none, none))
  | i, p :: rest =>
    let r := directScanAux (i + 1) rest
    if p.2 = MapEntry.dLocal then
      (MapEntry.null :: r.1, (lastWrite r.2.1 (some { idx := i, out := p.1 }), r.2.2))
    else if p.2 = MapEntry.dRemote then
      (MapEntry.null :: r.1, (r.2.1, lastWrite r.2.2 (some { idx := i, out := p.1 })))
    else
      (p.2 :: r.1, r.2)

/-- Result of a successful commit_tx call: the finalized transaction, the
HTLC-output map, and (iff requested) the located direct outputs
(LOCAL, REMOTE). -/
structure CommitResult where
  tx : BitcoinTx
  htlcmap : List MapEntry
  directOuts : Option (Option DirectOut × Option DirectOut)
deriving DecidableEq, Repr

/-- Assembly of the result from the emitted entries: canonical
permutation, version 2, obscured-commitment-number encoding into locktime
and input sequence, the single funding input, and the direct-output scan. -/
def commitResult (funding_txid funding_txout funding : Nat)
    (obscured_commitment_number : Nat) (entries : List Entry) (directReq : Bool) :
    CommitResult :=
  { tx := { version := 2,
            locktime := 0x20000000 ||| (obscured_commitment_number &&& 0xFFFFFF),
            inputs := [{ txid := funding_txid, txout := funding_txout,
                         sequence :=
                           0x80000000 ||| ((obscured_commitment_number >>> 24) &&& 0xFFFFFF),
                         amount := funding }],
            outputs := (sortEntries entries).map Entry.out },
    htlcmap :=
      if directReq then
        (directScanAux 0
          (((sortEntries entries).map Entry.out).zip ((sortEntries entries).map Entry.me))).1
      else (sortEntries entries).map Entry.me,
    directOuts :=
      if directReq then
        some (directScanAux 0
          (((sortEntries entries).map Entry.out).zip ((sortEntries entries).map Entry.me))).2
      else none }

/-- `commit_tx` from commit_tx.c.  `abort()` on millisatoshi-addition
overflow and the failing `assert()` branches (total payout above funding,
zero outputs after filtering, output count above the pre-sized capacity,
failed post-build structural check) are embedded as `none`. -/
def commit_tx (funding_txid funding_txout funding : Nat) (opener : Side)
    (to_self_delay keyset feerate_per_kw dust_limit self_pay other_pay : Nat)
    (htlcs : List Htlc) (directReq : Bool) (obscured_commitment_number : Nat)
    (side : Side) : Option CommitResult :=
  if 2 ^ 64 ≤ self_pay + other_pay then none
  else if funding * 1000 < self_pay + other_pay then none
  else if (commitEntriesFull opener keyset to_self_delay feerate_per_kw dust_limit
      self_pay other_pay htlcs directReq side).length = 0 then none
  else if commit_tx_num_untrimmed htlcs feerate_per_kw dust_limit side + 2 <
      (commitEntriesFull opener keyset to_self_delay feerate_per_kw dust_limit
        self_pay other_pay htlcs directReq side).length then none
  else if (commitResult funding_txid funding_txout funding obscured_commitment_number
      (commitEntriesFull opener keyset to_self_delay feerate_per_kw dust_limit
        self_pay other_pay htlcs directReq side) directReq).tx.outputs.length = 0 then none
  else
    some (commitResult funding_txid funding_txout funding obscured_commitment_number
      (commitEntriesFull opener keyset to_self_delay feerate_per_kw dust_limit
        self_pay other_pay htlcs directReq side) directReq)

/-- Sum of the satoshi amounts of a list of outputs. -/
def sumOutputs (outs : List TxOutput) : Nat := (outs.map TxOutput.amount).sum

/-- Sum of the millisatoshi amounts of a list of HTLCs. -/
def msatSum (htlcs : List Htlc) : Nat := (htlcs.map Htlc.amount).sum

/-- Decoding of a script key fragment, inverse of `scriptKey`. -/
def scriptOfKey (tag ks f1 f2 : Nat) : Script :=
  if tag = 0 then Script.offeredHtlc ks f1
  else if tag = 1 then Script.receivedHtlc ks f1 f2
  else if tag = 2 then Script.toLocal ks f1
  else Script.toRemote ks

/-- Decoding of an entry key back to the output it describes. -/
def outOfKey : List Nat → TxOutput
  | a :: tag :: ks :: f1 :: f2 :: _ => { script := scriptOfKey tag ks f1 f2, amount := a }
  | _ => { script := Script.toRemote 0, amount := 0 }

/-- Sentinel scrubbing: the replacement the direct-output scan applies to
each map entry it visits. -/
def scrub : MapEntry → MapEntry
  | MapEntry.dLocal => MapEntry.null
  | MapEntry.dRemote => MapEntry.null
  | e => e

/-- Recognizer of genuine HTLC references among map entries. -/
def isRefB : MapEntry → Bool
  | MapEntry.ref _ => true
  | _ => false

/-- Concrete HTLC offered by LOCAL (2000 sat), used by the witnesses. -/
def exHtlcA : Htlc := { id := 1, amount := 2000000, rhash := 11, expiry := 450, owner := Side.LOCAL }

/-- Concrete HTLC received by LOCAL (1000 sat, owned by REMOTE), used by
the witnesses. -/
def exHtlcB : Htlc := { id := 2, amount := 1000000, rhash := 12, expiry := 460, owner := Side.REMOTE }

/-- The commit_tx call of the running concrete example used by the
witnesses: funder = rendering side = LOCAL, feerate 253, dust 546 sat,
balances 4000 sat / 3000 sat, two live HTLCs, direct outputs requested. -/
def exCall : Option CommitResult :=
  commit_tx 7 1 10000 Side.LOCAL 144 5 253 546 4000000 3000000 [exHtlcA, exHtlcB]
    true 123456789 Side.LOCAL

/-- The assembled result of the example call. -/
def exResult : CommitResult :=
  commitResult 7 1 10000 123456789
    (commitEntriesFull Side.LOCAL 5 144 253 546 4000000 3000000
      [exHtlcA, exHtlcB] true Side.LOCAL) true


/-! ### The canonical key order is a linear order -/

lemma keyLe_total : ∀ x y : List Nat, keyLe x y = true ∨ keyLe y x = true := by
  intro x
  induction x with
  | nil => intro y; left; rfl
  | cons a as ih =>
    intro y
    cases y with
    | nil => right; rfl
    | cons b bs =>
      simp only [keyLe, Bool.or_eq_true, Bool.and_eq_true, decide_eq_true_eq, beq_iff_eq]
      rcases Nat.lt_trichotomy a b with h | h | h
      · left; left; exact h
      · rcases ih bs with h2 | h2
        · left; right; exact ⟨h, h2⟩
        · right; right; exact ⟨h.symm, h2⟩
      · right; left; exact h

lemma keyLe_trans : ∀ x y z : List Nat,
    keyLe x y = true → keyLe y z = true → keyLe x z = true := by
  intro x
  induction x with
  | nil => intro y z _ _; rfl
  | cons a as ih =>
    intro y z hxy hyz
    cases y with
    | nil => simp [keyLe] at hxy
    | cons b bs =>
      cases z with
      | nil => simp [keyLe] at hyz
      | cons c cs =>
        simp only [keyLe, Bool.or_eq_true, Bool.and_eq_true, decide_eq_true_eq,
          beq_iff_eq] at hxy hyz ⊢
        rcases hxy with h1 | ⟨h1, h1'⟩
        · rcases hyz with h2 | ⟨h2, _⟩
          · left; omega
          · left; omega
        · rcases hyz with h2 | ⟨h2, h2'⟩
          · left; omega
          · right; exact ⟨by omega, ih bs cs h1' h2'⟩

lemma keyLe_antisymm : ∀ x y : List Nat,
    keyLe x y = true → keyLe y x = true → x = y := by
  intro x
  induction x with
  | nil =>
    intro y _ hyx
    cases y with
    | nil => rfl
    | cons b bs => simp [keyLe] at hyx
  | cons a as ih =>
    intro y hxy hyx
    cases y with
    | nil => simp [keyLe] at hxy
    | cons b bs =>
      simp only [keyLe, Bool.or_eq_true, Bool.and_eq_true, decide_eq_true_eq,
        beq_iff_eq] at hxy hyx
      rcases hxy with h1 | ⟨h1, h1'⟩
      · rcases hyx with h2 | ⟨h2, _⟩
        · exfalso; omega
        · exfalso; omega
      · rcases hyx with h2 | ⟨h2, h2'⟩
        · exfalso; omega
        · rw [h1, ih bs h1' h2']

instance : IsTotal (List Nat) keyLeP := ⟨keyLe_total⟩

instance : IsTrans (List Nat) keyLeP := ⟨keyLe_trans⟩

instance : IsAntisymm (List Nat) keyLeP := ⟨keyLe_antisymm⟩

instance : IsTotal Entry entryLe := ⟨fun e1 e2 => keyLe_total (entryKey e1) (entryKey e2)⟩

instance : IsTrans Entry entryLe :=
  ⟨fun e1 e2 e3 => keyLe_trans (entryKey e1) (entryKey e2) (entryKey e3)⟩

/-! ### The sort key determines the output -/



lemma outOfKey_entryKey (e : Entry) : outOfKey (entryKey e) = e.out := by
  obtain ⟨⟨s, a⟩, m, c⟩ := e
  cases s <;> rfl

/-! ### Canonical permuter facts -/

lemma perm_sortEntries (l : List Entry) : (sortEntries l).Perm l :=
  List.perm_insertionSort entryLe l

lemma map_entryKey_sortEntries (l : List Entry) :
    (sortEntries l).map entryKey = List.insertionSort keyLeP (l.map entryKey) :=
  List.map_insertionSort entryLe keyLeP entryKey l (fun _ _ _ _ => Iff.rfl)

/-- Sorted permutations have identical key sequences, hence identical
output sequences: the canonical permuter absorbs input ordering. -/
lemma sortEntries_map_out_eq_of_perm {l1 l2 : List Entry} (hp : l1.Perm l2) :
    (sortEntries l1).map Entry.out = (sortEntries l2).map Entry.out := by
  have hk : (sortEntries l1).map entryKey = (sortEntries l2).map entryKey := by
    rw [map_entryKey_sortEntries, map_entryKey_sortEntries]
    exact List.eq_of_perm_of_sorted
      (((List.perm_insertionSort keyLeP (l1.map entryKey)).trans (hp.map entryKey)).trans
        (List.perm_insertionSort keyLeP (l2.map entryKey)).symm)
      (List.sorted_insertionSort keyLeP (l1.map entryKey))
      (List.sorted_insertionSort keyLeP (l2.map entryKey))
  have hout : ∀ l : List Entry, l.map Entry.out = (l.map entryKey).map outOfKey := by
    intro l
    rw [List.map_map]
    exact (List.map_congr_left (fun e _ => (outOfKey_entryKey e).symm))
  rw [hout, hout, hk]

/-! ### Direct-output scan facts -/



lemma directScanAux_fst : ∀ (i : Nat) (l : List (TxOutput × MapEntry)),
    (directScanAux i l).1 = l.map (fun p => scrub p.2) := by
  intro i l
  induction l generalizing i with
  | nil => rfl
  | cons p rest ih =>
    obtain ⟨o, e⟩ := p
    cases e <;> simp [directScanAux, scrub, ih]

lemma directScanAux_local_none : ∀ (i : Nat) (l : List (TxOutput × MapEntry)),
    (∀ p ∈ l, p.2 ≠ MapEntry.dLocal) → (directScanAux i l).2.1 = none := by
  intro i l
  induction l generalizing i with
  | nil => intro _; rfl
  | cons p rest ih =>
    intro h
    obtain ⟨o, e⟩ := p
    have he := h (o, e) (List.mem_cons_self _ _)
    have ht : ∀ q ∈ rest, q.2 ≠ MapEntry.dLocal :=
      fun q hq => h q (List.mem_cons_of_mem _ hq)
    cases e with
    | dLocal => exact absurd rfl he
    | dRemote => simp [directScanAux, ih (i + 1) ht]
    | ref hh => simp [directScanAux, ih (i + 1) ht]
    | null => simp [directScanAux, ih (i + 1) ht]

lemma directScanAux_remote_none : ∀ (i : Nat) (l : List (TxOutput × MapEntry)),
    (∀ p ∈ l, p.2 ≠ MapEntry.dRemote) → (directScanAux i l).2.2 = none := by
  intro i l
  induction l generalizing i with
  | nil => intro _; rfl
  | cons p rest ih =>
    intro h
    obtain ⟨o, e⟩ := p
    have he := h (o, e) (List.mem_cons_self _ _)
    have ht : ∀ q ∈ rest, q.2 ≠ MapEntry.dRemote :=
      fun q hq => h q (List.mem_cons_of_mem _ hq)
    cases e with
    | dRemote => exact absurd rfl he
    | dLocal => simp [directScanAux, ih (i + 1) ht]
    | ref hh => simp [directScanAux, ih (i + 1) ht]
    | null => simp [directScanAux, ih (i + 1) ht]

/-! ### commitResult projections -/

lemma commitResult_tx_outputs (a b c d : Nat) (entries : List Entry) (dreq : Bool) :
    (commitResult a b c d entries dreq).tx.outputs = (sortEntries entries).map Entry.out := rfl

lemma commitResult_tx_outputs_length (a b c d : Nat) (entries : List Entry) (dreq : Bool) :
    (commitResult a b c d entries dreq).tx.outputs.length = entries.length := by
  rw [commitResult_tx_outputs, List.length_map]
  exact (perm_sortEntries entries).length_eq

/-- Both branches of the direct-output scan leave the HTLC-output map equal
to the sorted entries' map column with sentinels scrubbed, provided that
without a direct-output request no sentinel was ever written. -/
lemma commitResult_htlcmap (a b c d : Nat) (entries : List Entry) (dreq : Bool)
    (hnd : dreq = false → ∀ e ∈ entries, scrub e.me = e.me) :
    (commitResult a b c d entries dreq).htlcmap
      = (sortEntries entries).map (fun e => scrub e.me) := by
  cases dreq with
  | true =>
    show (directScanAux 0 _).1 = _
    rw [List.zip_map' Entry.out Entry.me (sortEntries entries), directScanAux_fst,
      List.map_map]
    rfl
  | false =>
    show (sortEntries entries).map Entry.me = _
    apply List.map_congr_left
    intro e he
    exact ((hnd rfl) e ((perm_sortEntries entries).mem_iff.mp he)).symm

/-! ### Counting helpers -/

lemma countP_split {α : Type} (l : List α) (p q : α → Bool) :
    l.countP (fun a => p a && q a) + l.countP (fun a => !p a && q a) = l.countP q := by
  induction l with
  | nil => rfl
  | cons a t ih =>
    by_cases hp : p a <;> by_cases hq : q a <;>
      simp [List.countP_cons, hp, hq] <;> omega

/-- The two HTLC emission loops together add exactly the untrimmed count
of outputs: they scan the same list with the same trim predicate. -/
lemma offered_received_length (keyset feerate_per_kw dust_limit : Nat) (side : Side)
    (htlcs : List Htlc) :
    (offeredEntries keyset feerate_per_kw dust_limit side htlcs).length
      + (receivedEntries keyset feerate_per_kw dust_limit side htlcs).length
      = commit_tx_num_untrimmed htlcs feerate_per_kw dust_limit side := by
  unfold offeredEntries receivedEntries commit_tx_num_untrimmed
  rw [List.length_map, List.length_map, ← List.countP_eq_length_filter,
    ← List.countP_eq_length_filter]
  exact countP_split htlcs (fun h => htlc_owner h == side)
    (fun h => ! trim h feerate_per_kw dust_limit side)

lemma toLocalEntries_length_le (keyset to_self_delay dust_limit selfPost : Nat)
    (directReq : Bool) :
    (toLocalEntries keyset to_self_delay dust_limit selfPost directReq).length ≤ 1 := by
  unfold toLocalEntries
  split <;> simp

lemma toRemoteEntries_length_le (keyset dust_limit otherPost : Nat) (directReq : Bool) :
    (toRemoteEntries keyset dust_limit otherPost directReq).length ≤ 1 := by
  unfold toRemoteEntries
  split <;> simp

/-- The emitted output count never exceeds the pre-allocated capacity of
untrimmed + 2 slots: the capacity assert of commit_tx.c cannot fire. -/
lemma commitEntriesFull_length_le (opener : Side)
    (keyset to_self_delay feerate_per_kw dust_limit self_pay other_pay : Nat)
    (htlcs : List Htlc) (directReq : Bool) (side : Side) :
    (commitEntriesFull opener keyset to_self_delay feerate_per_kw dust_limit
        self_pay other_pay htlcs directReq side).length
      ≤ commit_tx_num_untrimmed htlcs feerate_per_kw dust_limit side + 2 := by
  unfold commitEntriesFull commitEntries
  have h1 := offered_received_length keyset feerate_per_kw dust_limit side htlcs
  have h2 := toLocalEntries_length_le keyset to_self_delay dust_limit
    (postFee opener side feerate_per_kw dust_limit self_pay other_pay htlcs).1 directReq
  have h3 := toRemoteEntries_length_le keyset dust_limit
    (postFee opener side feerate_per_kw dust_limit self_pay other_pay htlcs).2 directReq
  simp only [List.length_append]
  omega

/-! ### Inversion of commit_tx -/

/-- A commit_tx call succeeds exactly when no abort/assert branch fires,
and then its result is the assembled `commitResult`. -/
lemma commit_tx_eq_some_iff {funding_txid funding_txout funding : Nat} {opener : Side}
    {to_self_delay keyset feerate_per_kw dust_limit self_pay other_pay : Nat}
    {htlcs : List Htlc} {directReq : Bool} {obscured_commitment_number : Nat}
    {side : Side} {res : CommitResult} :
    commit_tx funding_txid funding_txout funding opener to_self_delay keyset
        feerate_per_kw dust_limit self_pay other_pay htlcs directReq
        obscured_commitment_number side = some res ↔
      self_pay + other_pay < 2 ^ 64 ∧
      self_pay + other_pay ≤ funding * 1000 ∧
      commitEntriesFull opener keyset to_self_delay feerate_per_kw dust_limit
        self_pay other_pay htlcs directReq side ≠ [] ∧
      (commitEntriesFull opener keyset to_self_delay feerate_per_kw dust_limit
          self_pay other_pay htlcs directReq side).length
        ≤ commit_tx_num_untrimmed htlcs feerate_per_kw dust_limit side + 2 ∧
      res = commitResult funding_txid funding_txout funding obscured_commitment_number
        (commitEntriesFull opener keyset to_self_delay feerate_per_kw dust_limit
          self_pay other_pay htlcs directReq side) directReq := by
  unfold commit_tx
  split_ifs with h1 h2 h3 h4 h5
  · simp only [false_iff]
    rintro ⟨c1, -⟩
    omega
  · simp only [false_iff]
    rintro ⟨-, c2, -⟩
    omega
  · simp only [false_iff]
    rintro ⟨-, -, c3, -⟩
    exact c3 (List.length_eq_zero.mp h3)
  · simp only [false_iff]
    rintro ⟨-, -, -, c4, -⟩
    omega
  · rw [commitResult_tx_outputs_length] at h5
    exact absurd h5 h3
  · rw [Option.some.injEq]
    constructor
    · intro h
      refine ⟨by omega, by omega, ?_, by omega, h.symm⟩
      intro hc
      exact h3 (by simp [hc])
    · intro h
      exact h.2.2.2.2.symm

/-! ### Bit-level facts for the obscured commitment number -/

lemma lor_mul_two_pow_add {k a b : Nat} (hb : b < 2 ^ k) :
    (2 ^ k * a) ||| b = 2 ^ k * a + b := by
  apply Nat.eq_of_testBit_eq
  intro j
  rw [Nat.testBit_lor, Nat.testBit_mul_pow_two_add a hb j]
  have h0 : (2 ^ k * a).testBit j = if j < k then false else a.testBit (j - k) := by
    have h := Nat.testBit_mul_pow_two_add a (Nat.two_pow_pos k) j
    simpa using h
  rw [h0]
  by_cases hj : j < k
  · simp [hj]
  · have hbj : b.testBit j = false :=
      Nat.testBit_lt_two_pow
        (lt_of_lt_of_le hb (Nat.pow_le_pow_right (by norm_num) (Nat.le_of_not_lt hj)))
    simp [hj, hbj]

lemma land_mask24 (n : Nat) : n &&& 0xFFFFFF = n % 2 ^ 24 := by
  have h := Nat.and_pow_two_sub_one_eq_mod n 24
  norm_num at h ⊢
  exact h

/-- The locktime/sequence encoding of the 48-bit obscured commitment
number is exactly inverted by
`(locktime & 0xFFFFFF) | ((sequence & 0xFFFFFF) << 24)`. -/
lemma obscured_roundtrip {N : Nat} (hN : N < 2 ^ 48) :
    ((0x20000000 ||| (N &&& 0xFFFFFF)) &&& 0xFFFFFF) |||
        (((0x80000000 ||| ((N >>> 24) &&& 0xFFFFFF)) &&& 0xFFFFFF) <<< 24) = N := by
  have hlow : (0x20000000 : Nat) ||| (N &&& 0xFFFFFF) = 2 ^ 24 * 32 + N % 2 ^ 24 := by
    rw [land_mask24, (by norm_num : (0x20000000 : Nat) = 2 ^ 24 * 32)]
    exact lor_mul_two_pow_add (Nat.mod_lt _ (by norm_num))
  have hseq : (0x80000000 : Nat) ||| ((N >>> 24) &&& 0xFFFFFF)
      = 2 ^ 24 * 128 + (N / 2 ^ 24) % 2 ^ 24 := by
    rw [land_mask24, Nat.shiftRight_eq_div_pow,
      (by norm_num : (0x80000000 : Nat) = 2 ^ 24 * 128)]
    exact lor_mul_two_pow_add (Nat.mod_lt _ (by norm_num))
  rw [hlow, hseq, land_mask24, land_mask24, Nat.shiftLeft_eq]
  have h1 : (2 ^ 24 * 32 + N % 2 ^ 24) % 2 ^ 24 = N % 2 ^ 24 := by omega
  have h2 : (2 ^ 24 * 128 + (N / 2 ^ 24) % 2 ^ 24) % 2 ^ 24 = (N / 2 ^ 24) % 2 ^ 24 := by
    omega
  rw [h1, h2, Nat.lor_comm, Nat.mul_comm,
    lor_mul_two_pow_add (Nat.mod_lt _ (by norm_num))]
  omega

/-! ### Shape of emitted entries -/

/-- Case analysis of one emitted entry: it is an HTLC entry, the to_local
entry or the to_remote entry, with the corresponding map entry, script and
emission condition. -/
lemma commitEntries_me_cases (keyset to_self_delay feerate_per_kw dust_limit : Nat)
    (side : Side) (htlcs : List Htlc) (selfPost otherPost : Nat) (directReq : Bool)
    {e : Entry}
    (he : e ∈ commitEntries keyset to_self_delay feerate_per_kw dust_limit side htlcs
      selfPost otherPost directReq) :
    (∃ h, e.me = MapEntry.ref h
        ∧ (e.out.script = Script.offeredHtlc keyset h.rhash
            ∨ e.out.script = Script.receivedHtlc keyset h.rhash h.expiry))
      ∨ (e.me = (if directReq then MapEntry.dLocal else MapEntry.null)
          ∧ e.out = { script := Script.toLocal keyset to_self_delay,
                      amount := amount_msat_to_sat_round_down selfPost }
          ∧ amount_msat_greater_eq_sat selfPost dust_limit = true)
      ∨ (e.me = (if directReq then MapEntry.dRemote else MapEntry.null)
          ∧ e.out = { script := Script.toRemote keyset,
                      amount := amount_msat_to_sat_round_down otherPost }
          ∧ amount_msat_greater_eq_sat otherPost dust_limit = true) := by
  unfold commitEntries at he
  rcases List.mem_append.mp he with h123 | h4
  · rcases List.mem_append.mp h123 with h12 | h3
    · rcases List.mem_append.mp h12 with h1 | h2
      · left
        unfold offeredEntries at h1
        obtain ⟨h, -, rfl⟩ := List.mem_map.mp h1
        exact ⟨h, rfl, Or.inl rfl⟩
      · left
        unfold receivedEntries at h2
        obtain ⟨h, -, rfl⟩ := List.mem_map.mp h2
        exact ⟨h, rfl, Or.inr rfl⟩
    · right; left
      unfold toLocalEntries at h3
      by_cases hc : amount_msat_greater_eq_sat selfPost dust_limit = true
      · rw [if_pos hc] at h3
        rcases List.mem_singleton.mp h3 with rfl
        exact ⟨rfl, rfl, hc⟩
      · rw [if_neg hc] at h3
        exact absurd h3 (List.not_mem_nil e)
  · right; right
    unfold toRemoteEntries at h4
    by_cases hc : amount_msat_greater_eq_sat otherPost dust_limit = true
    · rw [if_pos hc] at h4
      rcases List.mem_singleton.mp h4 with rfl
      exact ⟨rfl, rfl, hc⟩
    · rw [if_neg hc] at h4
      exact absurd h4 (List.not_mem_nil e)

/-- Without a direct-output request, no sentinel map entry is ever
written: scrubbing is the identity on every emitted entry. -/
lemma commitEntries_scrub_id (keyset to_self_delay feerate_per_kw dust_limit : Nat)
    (side : Side) (htlcs : List Htlc) (selfPost otherPost : Nat) {e : Entry}
    (he : e ∈ commitEntries keyset to_self_delay feerate_per_kw dust_limit side htlcs
      selfPost otherPost false) :
    scrub e.me = e.me := by
  rcases commitEntries_me_cases keyset to_self_delay feerate_per_kw dust_limit side htlcs
      selfPost otherPost false he with ⟨h, hme, -⟩ | ⟨hme, -, -⟩ | ⟨hme, -, -⟩ <;>
    rw [hme] <;> rfl

/-- The to_local entry is emitted whenever the post-fee self_pay passes
the dust test. -/
lemma toLocal_mem_commitEntries (keyset to_self_delay feerate_per_kw dust_limit : Nat)
    (side : Side) (htlcs : List Htlc) (selfPost otherPost : Nat) (directReq : Bool)
    (hc : amount_msat_greater_eq_sat selfPost dust_limit = true) :
    ({ out := { script := Script.toLocal keyset to_self_delay,
                amount := amount_msat_to_sat_round_down selfPost },
       me := if directReq then MapEntry.dLocal else MapEntry.null,
       cltv := 0 } : Entry)
      ∈ commitEntries keyset to_self_delay feerate_per_kw dust_limit side htlcs
          selfPost otherPost directReq := by
  unfold commitEntries
  refine List.mem_append.mpr (Or.inl (List.mem_append.mpr (Or.inr ?_)))
  unfold toLocalEntries
  rw [if_pos hc]
  exact List.mem_singleton.mpr rfl

/-- The to_remote entry is emitted whenever the post-fee other_pay passes
the dust test. -/
lemma toRemote_mem_commitEntries (keyset to_self_delay feerate_per_kw dust_limit : Nat)
    (side : Side) (htlcs : List Htlc) (selfPost otherPost : Nat) (directReq : Bool)
    (hc : amount_msat_greater_eq_sat otherPost dust_limit = true) :
    ({ out := { script := Script.toRemote keyset,
                amount := amount_msat_to_sat_round_down otherPost },
       me := if directReq then MapEntry.dRemote else MapEntry.null,
       cltv := 0 } : Entry)
      ∈ commitEntries keyset to_self_delay feerate_per_kw dust_limit side htlcs
          selfPost otherPost directReq := by
  unfold commitEntries
  refine List.mem_append.mpr (Or.inr ?_)
  unfold toRemoteEntries
  rw [if_pos hc]
  exact List.mem_singleton.mpr rfl

/-! ### Sum helpers -/

lemma offeredEntries_amounts (keyset feerate_per_kw dust_limit : Nat) (side : Side)
    (htlcs : List Htlc) :
    (offeredEntries keyset feerate_per_kw dust_limit side htlcs).map (fun e => e.out.amount)
      = (htlcs.filter
          (fun h => (htlc_owner h == side) && ! trim h feerate_per_kw dust_limit side)).map
          (fun h => h.amount / 1000) := by
  unfold offeredEntries
  rw [List.map_map]
  rfl

lemma receivedEntries_amounts (keyset feerate_per_kw dust_limit : Nat) (side : Side)
    (htlcs : List Htlc) :
    (receivedEntries keyset feerate_per_kw dust_limit side htlcs).map (fun e => e.out.amount)
      = (htlcs.filter
          (fun h => (!(htlc_owner h == side)) && ! trim h feerate_per_kw dust_limit side)).map
          (fun h => h.amount / 1000) := by
  unfold receivedEntries
  rw [List.map_map]
  rfl

/-- When no HTLC is trimmed, the two emission filters partition the HTLC
list, so the two loops together account every HTLC exactly once. -/
lemma sum_offered_received (side : Side) (feerate_per_kw dust_limit : Nat) (f : Htlc → Nat) :
    ∀ l : List Htlc, (∀ h ∈ l, trim h feerate_per_kw dust_limit side = false) →
      ((l.filter
          (fun h => (htlc_owner h == side) && ! trim h feerate_per_kw dust_limit side)).map f).sum
        + ((l.filter
            (fun h => (!(htlc_owner h == side)) && ! trim h feerate_per_kw dust_limit side)).map
            f).sum
        = (l.map f).sum := by
  intro l
  induction l with
  | nil => intro _; rfl
  | cons a t ih =>
    intro hq
    have hqa := hq a (List.mem_cons_self _ _)
    have iht := ih (fun h hh => hq h (List.mem_cons_of_mem _ hh))
    by_cases hp : (htlc_owner a == side) = true <;>
      simp [List.filter_cons, hp, hqa] <;> omega

lemma sum_map_div_1000 : ∀ l : List Htlc, (∀ h ∈ l, 1000 ∣ h.amount) →
    (l.map (fun h => h.amount / 1000)).sum = msatSum l / 1000 := by
  intro l
  induction l with
  | nil => intro _; rfl
  | cons a t ih =>
    intro hd
    have ha := hd a (List.mem_cons_self _ _)
    have iht := ih (fun h hh => hd h (List.mem_cons_of_mem _ hh))
    have hts : 1000 ∣ msatSum t := by
      unfold msatSum
      apply List.dvd_sum
      intro x hx
      obtain ⟨h, hh, rfl⟩ := List.mem_map.mp hx
      exact hd h (List.mem_cons_of_mem _ hh)
    obtain ⟨k, hk⟩ := ha
    obtain ⟨m, hm⟩ := hts
    have hmc : msatSum (a :: t) = a.amount + msatSum t := by
      unfold msatSum
      rw [List.map_cons, List.sum_cons]
    rw [List.map_cons, List.sum_cons, iht, hmc, hk, hm]
    omega

/-- Satoshi total of all emitted outputs when nothing is trimmed and both
post-fee balances pass the dust test. -/
lemma sum_commitEntries_amounts (keyset to_self_delay feerate_per_kw dust_limit : Nat)
    (side : Side) (htlcs : List Htlc) (selfPost otherPost : Nat) (directReq : Bool)
    (hs : amount_msat_greater_eq_sat selfPost dust_limit = true)
    (ho : amount_msat_greater_eq_sat otherPost dust_limit = true)
    (hnotrim : ∀ h ∈ htlcs, trim h feerate_per_kw dust_limit side = false) :
    ((commitEntries keyset to_self_delay feerate_per_kw dust_limit side htlcs
        selfPost otherPost directReq).map (fun e => e.out.amount)).sum
      = (htlcs.map (fun h => h.amount / 1000)).sum + selfPost / 1000 + otherPost / 1000 := by
  unfold commitEntries
  rw [List.map_append, List.map_append, List.map_append,
    List.sum_append, List.sum_append, List.sum_append,
    offeredEntries_amounts, receivedEntries_amounts]
  unfold toLocalEntries toRemoteEntries
  rw [if_pos hs, if_pos ho]
  simp only [List.map_cons, List.map_nil, List.sum_cons, List.sum_nil]
  have hsum := sum_offered_received side feerate_per_kw dust_limit
    (fun h => h.amount / 1000) htlcs hnotrim
  unfold amount_msat_to_sat_round_down
  omega

/-- The conservation arithmetic behind fee subtraction: with whole-satoshi
balances and a funder balance covering the fee, satoshi totals add back to
the funding amount. -/
lemma fee_conservation_arith (opener side : Side) (F sp op funding t : Nat)
    (hfund : funding * 1000 = sp + op + 1000 * t)
    (hds : 1000 ∣ sp) (hdo : 1000 ∣ op)
    (hfee : F * 1000 ≤ if opener = side then sp else op) :
    t + (try_subtract_fee opener side F sp op).1 / 1000
      + (try_subtract_fee opener side F sp op).2 / 1000 + F = funding := by
  unfold try_subtract_fee
  obtain ⟨s, rfl⟩ := hds
  obtain ⟨o, rfl⟩ := hdo
  by_cases hside : opener = side
  · rw [if_pos hside] at hfee
    rw [if_pos hside]
    omega
  · rw [if_neg hside] at hfee
    rw [if_neg hside]
    omega

/-! ### No fatal branch fires when one output survives -/

lemma commitEntriesFull_ne_nil (opener : Side)
    (keyset to_self_delay feerate_per_kw dust_limit self_pay other_pay : Nat)
    (htlcs : List Htlc) (directReq : Bool) (side : Side)
    (h : 0 < commit_tx_num_untrimmed htlcs feerate_per_kw dust_limit side
      ∨ amount_msat_greater_eq_sat
          (postFee opener side feerate_per_kw dust_limit self_pay other_pay htlcs).1
          dust_limit = true
      ∨ amount_msat_greater_eq_sat
          (postFee opener side feerate_per_kw dust_limit self_pay other_pay htlcs).2
          dust_limit = true) :
    commitEntriesFull opener keyset to_self_delay feerate_per_kw dust_limit
      self_pay other_pay htlcs directReq side ≠ [] := by
  intro hnil
  have hlen := congrArg List.length hnil
  unfold commitEntriesFull commitEntries at hlen
  simp only [List.length_append, List.length_nil] at hlen
  have h1 := offered_received_length keyset feerate_per_kw dust_limit side htlcs
  rcases h with h | h | h
  · omega
  · have h2 : (toLocalEntries keyset to_self_delay dust_limit
        (postFee opener side feerate_per_kw dust_limit self_pay other_pay htlcs).1
        directReq).length = 1 := by
      unfold toLocalEntries
      rw [if_pos h]
      rfl
    omega
  · have h2 : (toRemoteEntries keyset dust_limit
        (postFee opener side feerate_per_kw dust_limit self_pay other_pay htlcs).2
        directReq).length = 1 := by
      unfold toRemoteEntries
      rw [if_pos h]
      rfl
    omega

/-! ### Map-entry classification helpers -/



lemma scrub_cases : ∀ m : MapEntry,
    scrub m = MapEntry.null ∨ ∃ ht, scrub m = MapEntry.ref ht
  | MapEntry.ref h => Or.inr ⟨h, rfl⟩
  | MapEntry.dLocal => Or.inl rfl
  | MapEntry.dRemote => Or.inl rfl
  | MapEntry.null => Or.inl rfl

/-- Counting HTLC references over the emitted entries (after scrubbing)
gives exactly the untrimmed HTLC count. -/
lemma countP_isRef_commitEntries (keyset to_self_delay feerate_per_kw dust_limit : Nat)
    (side : Side) (htlcs : List Htlc) (selfPost otherPost : Nat) (directReq : Bool) :
    (commitEntries keyset to_self_delay feerate_per_kw dust_limit side htlcs
        selfPost otherPost directReq).countP (fun e => isRefB (scrub e.me))
      = commit_tx_num_untrimmed htlcs feerate_per_kw dust_limit side := by
  unfold commitEntries
  rw [List.countP_append, List.countP_append, List.countP_append]
  have h1 : (offeredEntries keyset feerate_per_kw dust_limit side htlcs).countP
      (fun e => isRefB (scrub e.me))
      = (offeredEntries keyset feerate_per_kw dust_limit side htlcs).length := by
    apply List.countP_eq_length.mpr
    intro e he
    unfold offeredEntries at he
    obtain ⟨h, -, rfl⟩ := List.mem_map.mp he
    rfl
  have h2 : (receivedEntries keyset feerate_per_kw dust_limit side htlcs).countP
      (fun e => isRefB (scrub e.me))
      = (receivedEntries keyset feerate_per_kw dust_limit side htlcs).length := by
    apply List.countP_eq_length.mpr
    intro e he
    unfold receivedEntries at he
    obtain ⟨h, -, rfl⟩ := List.mem_map.mp he
    rfl
  have h3 : (toLocalEntries keyset to_self_delay dust_limit selfPost directReq).countP
      (fun e => isRefB (scrub e.me)) = 0 := by
    apply List.countP_eq_zero.mpr
    intro e he
    unfold toLocalEntries at he
    by_cases hc : amount_msat_greater_eq_sat selfPost dust_limit = true
    · rw [if_pos hc] at he
      rcases List.mem_singleton.mp he with rfl
      cases directReq <;> simp [scrub, isRefB]
    · rw [if_neg hc] at he
      exact absurd he (List.not_mem_nil e)
  have h4 : (toRemoteEntries keyset dust_limit otherPost directReq).countP
      (fun e => isRefB (scrub e.me)) = 0 := by
    apply List.countP_eq_zero.mpr
    intro e he
    unfold toRemoteEntries at he
    by_cases hc : amount_msat_greater_eq_sat otherPost dust_limit = true
    · rw [if_pos hc] at he
      rcases List.mem_singleton.mp he with rfl
      cases directReq <;> simp [scrub, isRefB]
    · rw [if_neg hc] at he
      exact absurd he (List.not_mem_nil e)
  have h5 := offered_received_length keyset feerate_per_kw dust_limit side htlcs
  omega

/-! ### The claims -/

variable {funding_txid funding_txout funding : Nat} {opener : Side}
  {to_self_delay keyset feerate_per_kw dust_limit self_pay other_pay : Nat}
  {htlcs : List Htlc} {directReq : Bool} {obscured_commitment_number : Nat}
  {side : Side} {res : CommitResult}



/-- Claim C2: every successful commit_tx call returns a transaction of
version 2 with exactly one input referencing the funding outpoint, with
locktime `0x20000000 | (N & 0xFFFFFF)` and input sequence
`0x80000000 | ((N >> 24) & 0xFFFFFF)`; and for every obscured commitment
number N with 0 ≤ N < 2^48, decoding
`(locktime & 0xFFFFFF) | ((sequence & 0xFFFFFF) << 24)` recovers N. -/
theorem commit_tx_assembly_roundtrip
    (hN : obscured_commitment_number < 2 ^ 48)
    (h : commit_tx funding_txid funding_txout funding opener to_self_delay keyset
      feerate_per_kw dust_limit self_pay other_pay htlcs directReq
      obscured_commitment_number side = some res) :
    res.tx.version = 2 ∧
    res.tx.inputs = [{ txid := funding_txid, txout := funding_txout,
                       sequence :=
                         0x80000000 ||| ((obscured_commitment_number >>> 24) &&& 0xFFFFFF),
                       amount := funding }] ∧
    res.tx.locktime = 0x20000000 ||| (obscured_commitment_number &&& 0xFFFFFF) ∧
    res.tx.inputs.map
        (fun inp => (res.tx.locktime &&& 0xFFFFFF) ||| ((inp.sequence &&& 0xFFFFFF) <<< 24))
      = [obscured_commitment_number] := by
  obtain ⟨-, -, -, -, hres⟩ := commit_tx_eq_some_iff.mp h
  subst hres
  refine ⟨rfl, rfl, rfl, ?_⟩
  simp only [commitResult, List.map_cons, List.map_nil]
  rw [obscured_roundtrip hN]



/-- Witness for C2 at the concrete example call. -/
theorem commit_tx_assembly_roundtrip_witness :
    ((123456789 : Nat) < 2 ^ 48 ∧ exCall = some exResult) ∧
    (exResult.tx.version = 2 ∧
      exResult.tx.inputs = [{ txid := 7, txout := 1,
                              sequence :=
                                0x80000000 ||| (((123456789 : Nat) >>> 24) &&& 0xFFFFFF),
                              amount := 10000 }] ∧
      exResult.tx.locktime = 0x20000000 ||| ((123456789 : Nat) &&& 0xFFFFFF) ∧
      exResult.tx.inputs.map
          (fun inp => (exResult.tx.locktime &&& 0xFFFFFF) |||
            ((inp.sequence &&& 0xFFFFFF) <<< 24))
        = [123456789]) := by
  have h1 : (123456789 : Nat) < 2 ^ 48 := by decide
  have h2 : exCall = some exResult := by decide
  exact ⟨⟨h1, h2⟩, commit_tx_assembly_roundtrip h1 h2⟩

/-- Claim C3: the number of HTLC outputs actually added to the transaction
(offered plus received, i.e. the HTLC references surviving in the map)
equals the untrimmed count used to size the base fee: counting pass and
emission loops apply the identical trimming predicate to the same list. -/
theorem commit_tx_trim_count_consistent
    (h : commit_tx funding_txid funding_txout funding opener to_self_delay keyset
      feerate_per_kw dust_limit self_pay other_pay htlcs directReq
      obscured_commitment_number side = some res) :
    res.htlcmap.countP isRefB
      = commit_tx_num_untrimmed htlcs feerate_per_kw dust_limit side := by
  obtain ⟨-, -, -, -, hres⟩ := commit_tx_eq_some_iff.mp h
  subst hres
  rw [commitResult_htlcmap _ _ _ _ _ _
    (fun hd e he => commitEntries_scrub_id keyset to_self_delay feerate_per_kw dust_limit
      side htlcs _ _ (hd ▸ he))]
  rw [List.countP_map]
  rw [(perm_sortEntries _).countP_eq (isRefB ∘ fun e => scrub e.me)]
  exact countP_isRef_commitEntries keyset to_self_delay feerate_per_kw dust_limit side htlcs
    _ _ directReq

/-- Witness for C3 at the concrete example call: two untrimmed HTLCs. -/
theorem commit_tx_trim_count_consistent_witness :
    exCall = some exResult ∧
    exResult.htlcmap.countP isRefB
      = commit_tx_num_untrimmed [exHtlcA, exHtlcB] 253 546 Side.LOCAL := by
  have h : exCall = some exResult := by decide
  exact ⟨h, commit_tx_trim_count_consistent h⟩

/-- Claim C4: the returned HTLC-output map has exactly one entry per final
transaction output, and the canonical permutation is applied identically
to both: the pairing (output at i, map entry at i) is, as a whole, a
permutation of the pairing the emission loops wrote before sorting. -/
theorem commit_tx_htlcmap_coindexed
    (h : commit_tx funding_txid funding_txout funding opener to_self_delay keyset
      feerate_per_kw dust_limit self_pay other_pay htlcs directReq
      obscured_commitment_number side = some res) :
    res.htlcmap.length = res.tx.outputs.length ∧
    (res.tx.outputs.zip res.htlcmap).Perm
      ((commitEntriesFull opener keyset to_self_delay feerate_per_kw dust_limit
          self_pay other_pay htlcs directReq side).map (fun e => (e.out, scrub e.me))) := by
  obtain ⟨-, -, -, -, hres⟩ := commit_tx_eq_some_iff.mp h
  subst hres
  have hmap := commitResult_htlcmap funding_txid funding_txout funding
    obscured_commitment_number
    (commitEntriesFull opener keyset to_self_delay feerate_per_kw dust_limit
      self_pay other_pay htlcs directReq side) directReq
    (fun hd e he => commitEntries_scrub_id keyset to_self_delay feerate_per_kw dust_limit
      side htlcs _ _ (hd ▸ he))
  constructor
  · rw [hmap, commitResult_tx_outputs, List.length_map, List.length_map]
  · rw [hmap, commitResult_tx_outputs, List.zip_map']
    exact (perm_sortEntries _).map _

/-- Witness for C4 at the concrete example call. -/
theorem commit_tx_htlcmap_coindexed_witness :
    exCall = some exResult ∧
    (exResult.htlcmap.length = exResult.tx.outputs.length ∧
      (exResult.tx.outputs.zip exResult.htlcmap).Perm
        ((commitEntriesFull Side.LOCAL 5 144 253 546 4000000 3000000
            [exHtlcA, exHtlcB] true Side.LOCAL).map (fun e => (e.out, scrub e.me)))) := by
  have h : exCall = some exResult := by decide
  exact ⟨h, commit_tx_htlcmap_coindexed h⟩

/-- Claim C5: the to_local output is present iff the post-fee self_pay is
at least the dust limit, symmetrically for to_remote; and when direct
output locations are requested, a direction whose balance output was not
emitted gets an empty (NULL) direct-output slot. -/
theorem commit_tx_dust_omission
    (h : commit_tx funding_txid funding_txout funding opener to_self_delay keyset
      feerate_per_kw dust_limit self_pay other_pay htlcs directReq
      obscured_commitment_number side = some res) :
    ((∃ o ∈ res.tx.outputs, o.script = Script.toLocal keyset to_self_delay) ↔
      amount_msat_greater_eq_sat
        (postFee opener side feerate_per_kw dust_limit self_pay other_pay htlcs).1
        dust_limit = true) ∧
    ((∃ o ∈ res.tx.outputs, o.script = Script.toRemote keyset) ↔
      amount_msat_greater_eq_sat
        (postFee opener side feerate_per_kw dust_limit self_pay other_pay htlcs).2
        dust_limit = true) ∧
    (directReq = true →
      amount_msat_greater_eq_sat
        (postFee opener side feerate_per_kw dust_limit self_pay other_pay htlcs).1
        dust_limit = false →
      ∃ p, res.directOuts = some p ∧ p.1 = none) ∧
    (directReq = true →
      amount_msat_greater_eq_sat
        (postFee opener side feerate_per_kw dust_limit self_pay other_pay htlcs).2
        dust_limit = false →
      ∃ p, res.directOuts = some p ∧ p.2 = none) := by
  obtain ⟨-, -, -, -, hres⟩ := commit_tx_eq_some_iff.mp h
  subst hres
  have hmem : ∀ o : TxOutput,
      (o ∈ (commitResult funding_txid funding_txout funding obscured_commitment_number
          (commitEntriesFull opener keyset to_self_delay feerate_per_kw dust_limit
            self_pay other_pay htlcs directReq side) directReq).tx.outputs
        ↔ ∃ e ∈ commitEntriesFull opener keyset to_self_delay feerate_per_kw dust_limit
            self_pay other_pay htlcs directReq side, e.out = o) := by
    intro o
    rw [commitResult_tx_outputs]
    constructor
    · intro ho
      obtain ⟨e, he, rfl⟩ := List.mem_map.mp ho
      exact ⟨e, (perm_sortEntries _).mem_iff.mp he, rfl⟩
    · rintro ⟨e, he, rfl⟩
      exact List.mem_map.mpr ⟨e, (perm_sortEntries _).mem_iff.mpr he, rfl⟩
  refine ⟨?_, ?_, ?_, ?_⟩
  · constructor
    · rintro ⟨o, ho, hs⟩
      obtain ⟨e, he, rfl⟩ := (hmem o).mp ho
      rcases commitEntries_me_cases keyset to_self_delay feerate_per_kw dust_limit side
          htlcs _ _ directReq he with ⟨hh, -, hsc | hsc⟩ | ⟨-, hout, hc⟩ | ⟨-, hout, -⟩
      · rw [hsc] at hs; exact absurd hs (by simp)
      · rw [hsc] at hs; exact absurd hs (by simp)
      · exact hc
      · rw [hout] at hs; exact absurd hs (by simp)
    · intro hc
      exact ⟨_, (hmem _).mpr ⟨_, toLocal_mem_commitEntries keyset to_self_delay
        feerate_per_kw dust_limit side htlcs _ _ directReq hc, rfl⟩, rfl⟩
  · constructor
    · rintro ⟨o, ho, hs⟩
      obtain ⟨e, he, rfl⟩ := (hmem o).mp ho
      rcases commitEntries_me_cases keyset to_self_delay feerate_per_kw dust_limit side
          htlcs _ _ directReq he with ⟨hh, -, hsc | hsc⟩ | ⟨-, hout, -⟩ | ⟨-, hout, hc⟩
      · rw [hsc] at hs; exact absurd hs (by simp)
      · rw [hsc] at hs; exact absurd hs (by simp)
      · rw [hout] at hs; exact absurd hs (by simp)
      · exact hc
    · intro hc
      exact ⟨_, (hmem _).mpr ⟨_, toRemote_mem_commitEntries keyset to_self_delay
        feerate_per_kw dust_limit side htlcs _ _ directReq hc, rfl⟩, rfl⟩
  · intro hd hc
    subst hd
    refine ⟨_, rfl, ?_⟩
    apply directScanAux_local_none
    intro p hp
    rw [List.zip_map'] at hp
    obtain ⟨e, he, rfl⟩ := List.mem_map.mp hp
    have he' := (perm_sortEntries _).mem_iff.mp he
    rcases commitEntries_me_cases keyset to_self_delay feerate_per_kw dust_limit side
        htlcs _ _ true he' with ⟨hh, hme, -⟩ | ⟨-, -, hcc⟩ | ⟨hme, -, -⟩
    · rw [hme]; simp
    · rw [hcc] at hc; exact absurd hc (by simp)
    · rw [hme]; simp
  · intro hd hc
    subst hd
    refine ⟨_, rfl, ?_⟩
    apply directScanAux_remote_none
    intro p hp
    rw [List.zip_map'] at hp
    obtain ⟨e, he, rfl⟩ := List.mem_map.mp hp
    have he' := (perm_sortEntries _).mem_iff.mp he
    rcases commitEntries_me_cases keyset to_self_delay feerate_per_kw dust_limit side
        htlcs _ _ true he' with ⟨hh, hme, -⟩ | ⟨hme, -, -⟩ | ⟨-, -, hcc⟩
    · rw [hme]; simp
    · rw [hme]; simp
    · rw [hcc] at hc; exact absurd hc (by simp)

/-- Witness for C5: a call with other_pay forced under the dust limit, so
to_local is present, to_remote is absent and its direct slot is NULL. -/
theorem commit_tx_dust_omission_witness :
    commit_tx 7 1 10000 Side.LOCAL 144 5 253 546 6500000 500000 [exHtlcA, exHtlcB]
        true 123456789 Side.LOCAL
      = some (commitResult 7 1 10000 123456789
          (commitEntriesFull Side.LOCAL 5 144 253 546 6500000 500000
            [exHtlcA, exHtlcB] true Side.LOCAL) true) ∧
    (((∃ o ∈ (commitResult 7 1 10000 123456789
          (commitEntriesFull Side.LOCAL 5 144 253 546 6500000 500000
            [exHtlcA, exHtlcB] true Side.LOCAL) true).tx.outputs,
        o.script = Script.toLocal 5 144) ↔
      amount_msat_greater_eq_sat
        (postFee Side.LOCAL Side.LOCAL 253 546 6500000 500000 [exHtlcA, exHtlcB]).1
        546 = true) ∧
    ((∃ o ∈ (commitResult 7 1 10000 123456789
          (commitEntriesFull Side.LOCAL 5 144 253 546 6500000 500000
            [exHtlcA, exHtlcB] true Side.LOCAL) true).tx.outputs,
        o.script = Script.toRemote 5) ↔
      amount_msat_greater_eq_sat
        (postFee Side.LOCAL Side.LOCAL 253 546 6500000 500000 [exHtlcA, exHtlcB]).2
        546 = true) ∧
    (true = true →
      amount_msat_greater_eq_sat
        (postFee Side.LOCAL Side.LOCAL 253 546 6500000 500000 [exHtlcA, exHtlcB]).1
        546 = false →
      ∃ p, (commitResult 7 1 10000 123456789
          (commitEntriesFull Side.LOCAL 5 144 253 546 6500000 500000
            [exHtlcA, exHtlcB] true Side.LOCAL) true).directOuts = some p ∧ p.1 = none) ∧
    (true = true →
      amount_msat_greater_eq_sat
        (postFee Side.LOCAL Side.LOCAL 253 546 6500000 500000 [exHtlcA, exHtlcB]).2
        546 = false →
      ∃ p, (commitResult 7 1 10000 123456789
          (commitEntriesFull Side.LOCAL 5 144 253 546 6500000 500000
            [exHtlcA, exHtlcB] true Side.LOCAL) true).directOuts = some p ∧ p.2 = none)) := by
  have h : commit_tx 7 1 10000 Side.LOCAL 144 5 253 546 6500000 500000
      [exHtlcA, exHtlcB] true 123456789 Side.LOCAL
      = some (commitResult 7 1 10000 123456789
          (commitEntriesFull Side.LOCAL 5 144 253 546 6500000 500000
            [exHtlcA, exHtlcB] true Side.LOCAL) true) := by decide
  exact ⟨h, commit_tx_dust_omission h⟩

/-- Claim C6: for every opener, rendering side, fee and balance pair, the
fee (in millisatoshi) is subtracted from whichever balance corresponds to
the funder as seen from the rendering side, saturating at zero; the other
party's balance is never reduced, and exactly the covered part of the fee
leaves the balances (no error is raised — the function is total). -/
theorem try_subtract_fee_fee_allocation (opener side : Side)
    (base_fee self_pay other_pay : Nat) :
    (try_subtract_fee opener side base_fee self_pay other_pay).1
        = (if opener = side then self_pay - base_fee * 1000 else self_pay) ∧
    (try_subtract_fee opener side base_fee self_pay other_pay).2
        = (if opener = side then other_pay else other_pay - base_fee * 1000) ∧
    (try_subtract_fee opener side base_fee self_pay other_pay).1
        + (try_subtract_fee opener side base_fee self_pay other_pay).2
        + min (base_fee * 1000) (if opener = side then self_pay else other_pay)
      = self_pay + other_pay ∧
    (try_subtract_fee opener side base_fee self_pay other_pay).1 ≤ self_pay ∧
    (try_subtract_fee opener side base_fee self_pay other_pay).2 ≤ other_pay := by
  unfold try_subtract_fee
  by_cases hside : opener = side <;> simp [hside] <;> omega

/-- Claim C7 as stated is false on the code: with zero balances and the
only HTLC trimmed, its preconditions hold (no overflow, total payout of 0
below funding, and the channel-reserve premise constrains no input of the
function), yet the zero-output assert fires and the call aborts. -/
theorem commit_tx_no_fatal_cex :
    (0 : Nat) + 0 < 2 ^ 64 ∧ (0 : Nat) + 0 ≤ 1000 * 1000 ∧
    commit_tx 7 1 1000 Side.LOCAL 144 5 1000 546 0 0
        [{ id := 0, amount := 100000, rhash := 3, expiry := 500, owner := Side.LOCAL }]
        false 0 Side.LOCAL = none := by decide

/-- Claim C7 (amended): under no overflow, total payout at most the
funding, and at least one surviving output class (an untrimmed HTLC or a
post-fee balance passing the dust test — the consequence the reserve rule
is meant to guarantee), none of the abort/assert branches of commit_tx
fires: the call returns the assembled result. -/
theorem commit_tx_no_fatal
    (h1 : self_pay + other_pay < 2 ^ 64)
    (h2 : self_pay + other_pay ≤ funding * 1000)
    (h3 : 0 < commit_tx_num_untrimmed htlcs feerate_per_kw dust_limit side
      ∨ amount_msat_greater_eq_sat
          (postFee opener side feerate_per_kw dust_limit self_pay other_pay htlcs).1
          dust_limit = true
      ∨ amount_msat_greater_eq_sat
          (postFee opener side feerate_per_kw dust_limit self_pay other_pay htlcs).2
          dust_limit = true) :
    commit_tx funding_txid funding_txout funding opener to_self_delay keyset
        feerate_per_kw dust_limit self_pay other_pay htlcs directReq
        obscured_commitment_number side
      = some (commitResult funding_txid funding_txout funding obscured_commitment_number
          (commitEntriesFull opener keyset to_self_delay feerate_per_kw dust_limit
            self_pay other_pay htlcs directReq side) directReq) := by
  rw [commit_tx_eq_some_iff]
  exact ⟨h1, h2,
    commitEntriesFull_ne_nil opener keyset to_self_delay feerate_per_kw dust_limit
      self_pay other_pay htlcs directReq side h3,
    commitEntriesFull_length_le opener keyset to_self_delay feerate_per_kw dust_limit
      self_pay other_pay htlcs directReq side, rfl⟩

/-- Witness for the amended C7 at the concrete example call. -/
theorem commit_tx_no_fatal_witness :
    ((4000000 : Nat) + 3000000 < 2 ^ 64 ∧
      (4000000 : Nat) + 3000000 ≤ 10000 * 1000 ∧
      (0 < commit_tx_num_untrimmed [exHtlcA, exHtlcB] 253 546 Side.LOCAL
        ∨ amount_msat_greater_eq_sat
            (postFee Side.LOCAL Side.LOCAL 253 546 4000000 3000000 [exHtlcA, exHtlcB]).1
            546 = true
        ∨ amount_msat_greater_eq_sat
            (postFee Side.LOCAL Side.LOCAL 253 546 4000000 3000000 [exHtlcA, exHtlcB]).2
            546 = true)) ∧
    exCall = some exResult := by
  have h1 : (4000000 : Nat) + 3000000 < 2 ^ 64 := by decide
  have h2 : (4000000 : Nat) + 3000000 ≤ 10000 * 1000 := by decide
  have h3 : 0 < commit_tx_num_untrimmed [exHtlcA, exHtlcB] 253 546 Side.LOCAL
      ∨ amount_msat_greater_eq_sat
          (postFee Side.LOCAL Side.LOCAL 253 546 4000000 3000000 [exHtlcA, exHtlcB]).1
          546 = true
      ∨ amount_msat_greater_eq_sat
          (postFee Side.LOCAL Side.LOCAL 253 546 4000000 3000000 [exHtlcA, exHtlcB]).2
          546 = true := by decide
  exact ⟨⟨h1, h2, h3⟩, commit_tx_no_fatal h1 h2 h3⟩

/-- Claim C8: shuffling the input HTLC list yields the same final
transaction (identical output order and contents): the canonical permuter
absorbs input ordering. -/
theorem commit_tx_input_order_independence (htlcs1 htlcs2 : List Htlc)
    (hp : htlcs1.Perm htlcs2) :
    (commit_tx funding_txid funding_txout funding opener to_self_delay keyset
        feerate_per_kw dust_limit self_pay other_pay htlcs1 directReq
        obscured_commitment_number side).map CommitResult.tx
      = (commit_tx funding_txid funding_txout funding opener to_self_delay keyset
          feerate_per_kw dust_limit self_pay other_pay htlcs2 directReq
          obscured_commitment_number side).map CommitResult.tx := by
  have hu : commit_tx_num_untrimmed htlcs2 feerate_per_kw dust_limit side
      = commit_tx_num_untrimmed htlcs1 feerate_per_kw dust_limit side :=
    (hp.countP_eq _).symm
  have hpf : postFee opener side feerate_per_kw dust_limit self_pay other_pay htlcs2
      = postFee opener side feerate_per_kw dust_limit self_pay other_pay htlcs1 := by
    unfold postFee
    rw [hu]
  have hent : (commitEntriesFull opener keyset to_self_delay feerate_per_kw dust_limit
        self_pay other_pay htlcs1 directReq side).Perm
      (commitEntriesFull opener keyset to_self_delay feerate_per_kw dust_limit
        self_pay other_pay htlcs2 directReq side) := by
    unfold commitEntriesFull commitEntries
    rw [hpf]
    refine List.Perm.append (List.Perm.append (List.Perm.append ?_ ?_) (List.Perm.refl _))
      (List.Perm.refl _)
    · unfold offeredEntries
      exact (hp.filter _).map _
    · unfold receivedEntries
      exact (hp.filter _).map _
  have hlen := hent.length_eq
  have hout := sortEntries_map_out_eq_of_perm hent
  have htx : (commitResult funding_txid funding_txout funding obscured_commitment_number
        (commitEntriesFull opener keyset to_self_delay feerate_per_kw dust_limit
          self_pay other_pay htlcs1 directReq side) directReq).tx
      = (commitResult funding_txid funding_txout funding obscured_commitment_number
          (commitEntriesFull opener keyset to_self_delay feerate_per_kw dust_limit
            self_pay other_pay htlcs2 directReq side) directReq).tx := by
    simp only [commitResult]
    rw [hout]
  simp only [commit_tx]
  rw [commitResult_tx_outputs_length, commitResult_tx_outputs_length, hu, hlen]
  split_ifs <;> simp [htx]

/-- Witness for C8: the example HTLC pair in the two possible orders. -/
theorem commit_tx_input_order_independence_witness :
    ([exHtlcA, exHtlcB] : List Htlc).Perm [exHtlcB, exHtlcA] ∧
    (commit_tx 7 1 10000 Side.LOCAL 144 5 253 546 4000000 3000000 [exHtlcA, exHtlcB]
        true 123456789 Side.LOCAL).map CommitResult.tx
      = (commit_tx 7 1 10000 Side.LOCAL 144 5 253 546 4000000 3000000 [exHtlcB, exHtlcA]
          true 123456789 Side.LOCAL).map CommitResult.tx := by
  have hp : ([exHtlcA, exHtlcB] : List Htlc).Perm [exHtlcB, exHtlcA] :=
    List.Perm.swap exHtlcB exHtlcA []
  exact ⟨hp, commit_tx_input_order_independence [exHtlcA, exHtlcB] [exHtlcB, exHtlcA] hp⟩

/-- Claim C9: the final output count never exceeds the pre-allocated
worst-case bound: it is at most untrimmed + 2 (the allocation commit_tx.c
asserts against) and hence at most HTLC count + 2. -/
theorem commit_tx_output_count_bound
    (h : commit_tx funding_txid funding_txout funding opener to_self_delay keyset
      feerate_per_kw dust_limit self_pay other_pay htlcs directReq
      obscured_commitment_number side = some res) :
    res.tx.outputs.length
        ≤ commit_tx_num_untrimmed htlcs feerate_per_kw dust_limit side + 2 ∧
    res.tx.outputs.length ≤ htlcs.length + 2 := by
  obtain ⟨-, -, -, hlen, hres⟩ := commit_tx_eq_some_iff.mp h
  subst hres
  rw [commitResult_tx_outputs_length]
  have hcount : commit_tx_num_untrimmed htlcs feerate_per_kw dust_limit side
      ≤ htlcs.length := List.countP_le_length _
  exact ⟨hlen, by omega⟩

/-- Witness for C9 at the concrete example call: 4 outputs ≤ 2 + 2. -/
theorem commit_tx_output_count_bound_witness :
    exCall = some exResult ∧
    (exResult.tx.outputs.length
        ≤ commit_tx_num_untrimmed [exHtlcA, exHtlcB] 253 546 Side.LOCAL + 2 ∧
      exResult.tx.outputs.length ≤ ([exHtlcA, exHtlcB] : List Htlc).length + 2) := by
  have h : exCall = some exResult := by decide
  exact ⟨h, commit_tx_output_count_bound h⟩

/-- Claim C10: the returned HTLC-output map never contains the internal
sentinel values: every entry is NULL or a genuine HTLC reference. -/
theorem commit_tx_sentinel_free
    (h : commit_tx funding_txid funding_txout funding opener to_self_delay keyset
      feerate_per_kw dust_limit self_pay other_pay htlcs directReq
      obscured_commitment_number side = some res) :
    ∀ e ∈ res.htlcmap, e = MapEntry.null ∨ ∃ ht, e = MapEntry.ref ht := by
  obtain ⟨-, -, -, -, hres⟩ := commit_tx_eq_some_iff.mp h
  subst hres
  rw [commitResult_htlcmap _ _ _ _ _ _
    (fun hd e he => commitEntries_scrub_id keyset to_self_delay feerate_per_kw dust_limit
      side htlcs _ _ (hd ▸ he))]
  intro e he
  obtain ⟨x, -, rfl⟩ := List.mem_map.mp he
  exact scrub_cases x.me

/-- Witness for C10 at the concrete example call (sentinels were written,
direct outputs requested, and the returned map holds only refs/NULL). -/
theorem commit_tx_sentinel_free_witness :
    exCall = some exResult ∧
    ∀ e ∈ exResult.htlcmap, e = MapEntry.null ∨ ∃ ht, e = MapEntry.ref ht := by
  have h : exCall = some exResult := by decide
  exact ⟨h, commit_tx_sentinel_free h⟩

/-- Claim C1 as stated is false on the code: with zero feerate (base fee
0), funding 2000 sat equal to the total balance of 1000500 + 999500 msat,
and both balances exceeding the fee requirement, the millisatoshi residue
is silently dropped by truncation, so the satoshi output sum (1999) plus
the base fee (0) differs from the funding amount (2000). -/
theorem commit_tx_fee_conservation_cex :
    commit_tx_base_fee 0 (commit_tx_num_untrimmed [] 0 0 Side.LOCAL) * 1000 < 1000500 ∧
    commit_tx_base_fee 0 (commit_tx_num_untrimmed [] 0 0 Side.LOCAL) * 1000 < 999500 ∧
    (2000 : Nat) * 1000 = 1000500 + 999500 ∧
    (commit_tx 7 1 2000 Side.LOCAL 144 5 0 0 1000500 999500 [] false 0 Side.LOCAL).map
        (fun r => sumOutputs r.tx.outputs
          + commit_tx_base_fee 0 (commit_tx_num_untrimmed [] 0 0 Side.LOCAL))
      ≠ some 2000 := by decide

/-- Claim C1 (amended): fee conservation.  When the funding amount equals
self_pay + other_pay + the sum of all HTLC amounts (the channel
invariant), every amount is a whole number of satoshis, no HTLC is
trimmed, the funder's balance covers the base fee and both post-fee
balances pass the dust test, the satoshi sum of all output amounts plus
the computed base fee equals the funding amount; and the non-funder's
balance is never touched by the fee subtraction. -/
theorem commit_tx_fee_conservation
    (h : commit_tx funding_txid funding_txout funding opener to_self_delay keyset
      feerate_per_kw dust_limit self_pay other_pay htlcs directReq
      obscured_commitment_number side = some res)
    (hfund : funding * 1000 = self_pay + other_pay + msatSum htlcs)
    (hdivS : 1000 ∣ self_pay) (hdivO : 1000 ∣ other_pay)
    (hdivH : ∀ ht ∈ htlcs, 1000 ∣ ht.amount)
    (hnotrim : ∀ ht ∈ htlcs, trim ht feerate_per_kw dust_limit side = false)
    (hfee : commit_tx_base_fee feerate_per_kw
        (commit_tx_num_untrimmed htlcs feerate_per_kw dust_limit side) * 1000
      ≤ (if opener = side then self_pay else other_pay))
    (hs : amount_msat_greater_eq_sat
      (postFee opener side feerate_per_kw dust_limit self_pay other_pay htlcs).1
      dust_limit = true)
    (ho : amount_msat_greater_eq_sat
      (postFee opener side feerate_per_kw dust_limit self_pay other_pay htlcs).2
      dust_limit = true) :
    sumOutputs res.tx.outputs + commit_tx_base_fee feerate_per_kw
        (commit_tx_num_untrimmed htlcs feerate_per_kw dust_limit side) = funding ∧
    (if opener = side
      then (postFee opener side feerate_per_kw dust_limit self_pay other_pay htlcs).2
            = other_pay
      else (postFee opener side feerate_per_kw dust_limit self_pay other_pay htlcs).1
            = self_pay) := by
  obtain ⟨-, -, -, -, hres⟩ := commit_tx_eq_some_iff.mp h
  constructor
  · have hso : sumOutputs res.tx.outputs
        = ((commitEntriesFull opener keyset to_self_delay feerate_per_kw dust_limit
            self_pay other_pay htlcs directReq side).map (fun e => e.out.amount)).sum := by
      rw [hres, commitResult_tx_outputs]
      unfold sumOutputs
      rw [List.map_map]
      exact ((perm_sortEntries _).map _).sum_eq
    rw [hso]
    unfold commitEntriesFull
    rw [sum_commitEntries_amounts keyset to_self_delay feerate_per_kw dust_limit side htlcs
      _ _ directReq hs ho hnotrim]
    rw [sum_map_div_1000 htlcs hdivH]
    have hms : 1000 ∣ msatSum htlcs := by
      unfold msatSum
      apply List.dvd_sum
      intro x hx
      obtain ⟨ht, hmem, rfl⟩ := List.mem_map.mp hx
      exact hdivH ht hmem
    obtain ⟨t, hts⟩ := hms
    have harith := fee_conservation_arith opener side
      (commit_tx_base_fee feerate_per_kw
        (commit_tx_num_untrimmed htlcs feerate_per_kw dust_limit side))
      self_pay other_pay funding t (by omega) hdivS hdivO hfee
    unfold postFee
    have ht' : msatSum htlcs / 1000 = t := by omega
    rw [ht']
    omega
  · unfold postFee try_subtract_fee
    by_cases hside : opener = side <;> simp [hside]

/-- Witness for the amended C1 at the concrete example call:
9729 sat of outputs + 271 sat of base fee = 10000 sat of funding. -/
theorem commit_tx_fee_conservation_witness :
    (exCall = some exResult ∧
      (10000 : Nat) * 1000 = 4000000 + 3000000 + msatSum [exHtlcA, exHtlcB] ∧
      (1000 : Nat) ∣ 4000000 ∧ (1000 : Nat) ∣ 3000000 ∧
      (∀ ht ∈ ([exHtlcA, exHtlcB] : List Htlc), 1000 ∣ ht.amount) ∧
      (∀ ht ∈ ([exHtlcA, exHtlcB] : List Htlc), trim ht 253 546 Side.LOCAL = false) ∧
      commit_tx_base_fee 253
          (commit_tx_num_untrimmed [exHtlcA, exHtlcB] 253 546 Side.LOCAL) * 1000
        ≤ (if Side.LOCAL = Side.LOCAL then (4000000 : Nat) else 3000000) ∧
      amount_msat_greater_eq_sat
        (postFee Side.LOCAL Side.LOCAL 253 546 4000000 3000000 [exHtlcA, exHtlcB]).1
        546 = true ∧
      amount_msat_greater_eq_sat
        (postFee Side.LOCAL Side.LOCAL 253 546 4000000 3000000 [exHtlcA, exHtlcB]).2
        546 = true) ∧
    (sumOutputs exResult.tx.outputs + commit_tx_base_fee 253
        (commit_tx_num_untrimmed [exHtlcA, exHtlcB] 253 546 Side.LOCAL) = 10000 ∧
      (if Side.LOCAL = Side.LOCAL
        then (postFee Side.LOCAL Side.LOCAL 253 546 4000000 3000000
              [exHtlcA, exHtlcB]).2 = 3000000
        else (postFee Side.LOCAL Side.LOCAL 253 546 4000000 3000000
              [exHtlcA, exHtlcB]).1 = 4000000)) := by
  have h : exCall = some exResult := by decide
  have hfund : (10000 : Nat) * 1000 = 4000000 + 3000000 + msatSum [exHtlcA, exHtlcB] := by
    decide
  have hdS : (1000 : Nat) ∣ 4000000 := by decide
  have hdO : (1000 : Nat) ∣ 3000000 := by decide
  have hdH : ∀ ht ∈ ([exHtlcA, exHtlcB] : List Htlc), 1000 ∣ ht.amount := by decide
  have hnt : ∀ ht ∈ ([exHtlcA, exHtlcB] : List Htlc), trim ht 253 546 Side.LOCAL = false := by
    decide
  have hfee : commit_tx_base_fee 253
      (commit_tx_num_untrimmed [exHtlcA, exHtlcB] 253 546 Side.LOCAL) * 1000
      ≤ (if Side.LOCAL = Side.LOCAL then (4000000 : Nat) else 3000000) := by decide
  have hs : amount_msat_greater_eq_sat
      (postFee Side.LOCAL Side.LOCAL 253 546 4000000 3000000 [exHtlcA, exHtlcB]).1
      546 = true := by decide
  have ho : amount_msat_greater_eq_sat
      (postFee Side.LOCAL Side.LOCAL 253 546 4000000 3000000 [exHtlcA, exHtlcB]).2
      546 = true := by decide
  exact ⟨⟨h, hfund, hdS, hdO, hdH, hnt, hfee, hs, ho⟩,
    commit_tx_fee_conservation h hfund hdS hdO hdH hnt hfee hs ho⟩

end CommitTx
